import Mathlib

/-!
Verification development for the kubectl-find predicate-matching and
action-dispatch engine.  Each definition is a shallow embedding of one Go
function of the repository; theorems settle the frozen claims about it.

Modelling conventions:
* Time instants and durations are integers (nanoseconds); `time.Since t`
  becomes `now - t` for a fixed `now` (the program is single threaded and
  the matcher closes over one invocation).
* A compiled regular expression is modelled as its `MatchString` method,
  a function `String → Bool`; a nil `*regexp.Regexp` is `none`.
* The gojq evaluator is a black box: running a compiled query on a
  document yields the list of values its iterator emits, where a Go
  `error` emission is the `GoVal.err` constructor and the Go nil
  interface (JSON null) is `GoVal.null`.
* Writes to the in-memory IO streams are modelled as infallible and
  accumulated as lists of written strings; the checks the Go code makes of the
  `Write` error results are dead branches for in-memory buffers.
* Remote mutations (delete / patch / exec transports) are oracles
  `String → Option String`: `none` is success, `some cause` is the error
  returned by the API call.
-/

/-! ### pkg/prompts (deletion.go): the confirmation prompt -/

/-- `strings.ToLower`, written over the character list so that it
evaluates by kernel reduction. -/
def goToLower (s : String) : String := String.mk (s.data.map Char.toLower)

/-- `strings.TrimSpace`: drop leading and trailing whitespace, written
over the character list so that it evaluates by kernel reduction. -/
def goTrimSpace (s : String) : String :=
  String.mk (((s.data.dropWhile Char.isWhitespace).reverse.dropWhile
    Char.isWhitespace).reverse)

/-- The literal prompt `AskForConfirmation` writes to standard error. -/
def confirmationPrompt : String := "Are you sure you want to continue? [y/N]: "

/-- `prompts.AskForConfirmation`, applied to the line read from standard
input (on a read failure the Go code ignores the error and keeps the
partial input, so a failed read is just some string, possibly empty). -/
def askForConfirmation (input : String) : Bool :=
  let i := goTrimSpace (goToLower input)
  i == "y" || i == "yes"

/-! ### pkg (print.go side of the package): gojq matching -/

/-- A Go `interface{}` value as emitted by the gojq iterator. -/
inductive GoVal where
  | null
  | bool (b : Bool)
  | num (n : Int)
  | str (s : String)
  | arr (xs : List GoVal)
  | obj (fields : List (String × GoVal))
  | err (msg : String)

/-- The type assertion `v.(bool)` succeeding with value `true`. -/
def goIsBoolTrue : GoVal → Bool
  | GoVal.bool b => b
  | _ => false

/-- The Go comparison `v != nil`: a non-nil interface value.  Note that an
interface holding the concrete boolean `false` is NOT nil in Go. -/
def goIsNonNil : GoVal → Bool
  | GoVal.null => false
  | _ => true

/-- `pkg.MatchesWithGoJQ`, as a function of the value stream the query
iterator emits for the given object.  The loop checks, per value: error →
return the wrapped error; `isBool && b` → match; `v != nil` → match;
otherwise continue; exhausted → no match. -/
def matchesWithGoJQ : List GoVal → Except String Bool
  | [] => Except.ok false
  | v :: rest =>
    match v with
    | GoVal.err m => Except.error ("jq evaluation error: " ++ m)
    | v =>
      if goIsBoolTrue v then Except.ok true
      else if goIsNonNil v then Except.ok true
      else matchesWithGoJQ rest

/-- A compiled gojq query, as the black-box map from a candidate document
to the stream of values its iterator emits. -/
def GoQuery : Type := GoVal → List GoVal

/-! ### pkg/handlers/resource.go: options and resource descriptors -/

/-- `handlers.Resource` (the fields the handlers read). -/
structure Resource where
  pluralName : String
  singularName : String
  isNamespaced : Bool

/-- `handlers.ActionOptions` (the fields the matchers and action loops
read; `nspace` is the Go field `Namespace`). -/
structure ActionOptions where
  nspace : String
  nameRegex : Option (String → Bool)
  minAge : Int
  maxAge : Int
  skipConfirm : Bool
  podStatus : String
  patch : String
  patchStrategy : String
  exec : String
  nodeNameRegex : Option (String → Bool)
  restarted : Bool
  jqQuery : Option GoQuery

/-- The constant `k8s_types.StrategicMergePatchType`. -/
def strategicMergePatchType : String := "application/strategic-merge-patch+json"

/-! ### Candidates -/

/-- A pod as the pod matcher and the pod action loops read it: `nspace`
is `ObjectMeta.Namespace`, `phase` is `Status.Phase`, `nodeName` is
`Spec.NodeName`, `nominatedNodeName` is `Status.NominatedNodeName`, and
`restartCounts` lists `Status.ContainerStatuses[i].RestartCount`. -/
structure Pod where
  name : String
  nspace : String
  creationTimestamp : Int
  phase : String
  nodeName : String
  nominatedNodeName : String
  restartCounts : List Nat

/-- An unstructured item as the universal handler reads it: `doc` is
`resource.Object`. -/
structure UItem where
  name : String
  nspace : String
  creationTimestamp : Int
  doc : GoVal

/-! ### PodHandler.getMatcher (pkg/types/pods.go, the node-name aware
version of the source tree) -/

/-- `PodHandler.getMatcher`: name regex, min/max age, status phase and
node-name regex checks in source order; each failed check returns false. -/
def getMatcher (now : Int) (opts : ActionOptions) (pod : Pod) : Bool :=
  if (match opts.nameRegex with
      | some regex => !(regex pod.name)
      | none => false) then false
  else if opts.minAge ≠ 0 ∧ now - pod.creationTimestamp < opts.minAge then false
  else if opts.maxAge ≠ 0 ∧ now - pod.creationTimestamp > opts.maxAge then false
  else if opts.podStatus ≠ "" ∧ pod.phase ≠ opts.podStatus then false
  else
    match opts.nodeNameRegex with
    | none => true
    | some regex =>
      let nodeName := if pod.nodeName = "" then pod.nominatedNodeName else pod.nodeName
      if nodeName = "" then false
      else regex nodeName

/-- Total restart count of a pod: the sum over
`Status.ContainerStatuses[i].RestartCount` (as in the RESTARTS column of
`GetColumnsForPods`). -/
def totalRestarts (pod : Pod) : Nat := pod.restartCounts.foldl (fun a b => a + b) 0

/-- Modelled from the spec: the `restarted` clause of the pod matcher in
`pkg/handlers/pods.go`, whose implementation is absent from the sources
(only its flag `ActionOptions.Restarted`, its caller in `find.go`, its
RESTARTS column and its test are present).  The spec: the pod predicates
are AND-combined, and "has restarted" is "true if the sum of
per-container restart counts is ≥ 1". -/
def handlersGetMatcher (now : Int) (opts : ActionOptions) (pod : Pod) : Bool :=
  getMatcher now opts pod &&
    (if opts.restarted then decide (1 ≤ totalRestarts pod) else true)

/-! ### UniversalHandler.resourceMatches (pkg/types/universal.go) -/

/-- `UniversalHandler.resourceMatches`: name regex, age window (guards
written `> 0` here, unlike the `≠ 0` guard of the pod matcher), then the jq query;
a jq evaluation error or a false result is a non-match. -/
def resourceMatches (now : Int) (opts : ActionOptions) (item : UItem) : Bool :=
  if (match opts.nameRegex with
      | some regex => !(regex item.name)
      | none => false) then false
  else if opts.minAge > 0 ∧ now - item.creationTimestamp < opts.minAge then false
  else if opts.maxAge > 0 ∧ now - item.creationTimestamp > opts.maxAge then false
  else
    match opts.jqQuery with
    | none => true
    | some q =>
      match matchesWithGoJQ (q item.doc) with
      | Except.error _ => false
      | Except.ok m => m

/-- The match loop of `UniversalHandler.HandleAction`: collect the items
`resourceMatches` accepts, in fetch order.  It is a total function — no
error path exists in the matching phase. -/
def matchResources (now : Int) (opts : ActionOptions) (items : List UItem) : List UItem :=
  items.filter (fun item => resourceMatches now opts item)

/-! ### FindOptions.Validate (pkg/cmd/find.go): the jq filter and the
run pipeline -/

/-- The jq-filter block of `FindOptions.Validate` (find.go 408-417):
an empty flag yields no query; a parse failure is wrapped as
`invalid jq filter %q: %w` and aborts validation. -/
def validateJQFilter (parse : String → Except String GoQuery) (jqFilter : String) :
    Except String (Option GoQuery) :=
  if jqFilter = "" then Except.ok none
  else
    match parse jqFilter with
    | Except.error e =>
        Except.error ("invalid jq filter \"" ++ jqFilter ++ "\": " ++ e)
    | Except.ok q => Except.ok (some q)

/-- The command pipeline of the RunE closure of `NewCmdFind`: `Validate` runs before
`Run`, and the fetch + match happen only inside `Run`.  The boolean
records whether the fetch was performed. -/
def findPipeline (parse : String → Except String GoQuery) (jqFilter : String)
    (fetch : Unit → List UItem) (now : Int) (opts : ActionOptions) :
    Except String (List UItem) × Bool :=
  match validateJQFilter parse jqFilter with
  | Except.error e => (Except.error e, false)
  | Except.ok q =>
      (Except.ok (matchResources now { opts with jqQuery := q } (fetch ())), true)

/-! ### UniversalHandler.HandleAction: delete and patch (pkg/types/universal.go)

The handle functions below embed the action phase of `HandleAction`
from the matched list on (the fetch and the match loop are modelled by
`matchResources`; the handle functions receive `matchedItems`). -/

/-- One issued patch request (`resources.Patch` / `Pods(...).Patch`). -/
structure PatchCall where
  name : String
  patchType : String
  body : String
deriving DecidableEq

/-- Result of a mutation loop: the stdout confirmation lines, the names
of the items for which a remote call was issued, the names of the items
whose call succeeded, and the error of the first failed call. -/
structure MutationLoopOut where
  outLines : List String
  issued : List String
  mutated : List String
  err : Option String
deriving DecidableEq

/-- Result of a patch loop: as `MutationLoopOut` but with the issued
patch requests recorded in full. -/
structure PatchLoopOut where
  outLines : List String
  calls : List PatchCall
  mutated : List String
  err : Option String
deriving DecidableEq

/-- Result of a whole delete/patch action run: error, stdout writes,
stderr writes, issued remote calls (by item name), succeeded mutations
(by item name). -/
structure RunResult where
  err : Option String
  outWrites : List String
  errWrites : List String
  issued : List String
  mutated : List String
deriving DecidableEq

/-- Result of a whole patch action run. -/
structure PatchRunResult where
  err : Option String
  outWrites : List String
  errWrites : List String
  calls : List PatchCall
  mutated : List String
deriving DecidableEq

/-- `UniversalHandler.printResource`: the preview line written to
standard error for one item; the namespace is shown only for a
namespaced kind listed across namespaces. -/
def universalPreviewLine (res : Resource) (opts : ActionOptions) (item : UItem) : String :=
  if res.isNamespaced ∧ opts.nspace = "" then
    "- " ++ item.name ++ " in namespace " ++ item.nspace ++ "\n"
  else
    "- " ++ item.name ++ "\n"

/-- The delete loop of `UniversalHandler.HandleAction` (universal.go
129-136): delete each item in matched order; the first failure returns
`failed to delete <singular> <name>: <cause>` immediately; each success
prints `Deleted <singular> <name>` (no namespace) to standard output. -/
def universalDeleteLoop (res : Resource) (del : String → Option String) :
    List UItem → MutationLoopOut
  | [] => ⟨[], [], [], none⟩
  | item :: rest =>
    match del item.name with
    | some cause =>
        ⟨[], [item.name], [],
         some ("failed to delete " ++ res.singularName ++ " " ++ item.name ++ ": " ++ cause)⟩
    | none =>
        let r := universalDeleteLoop res del rest
        ⟨("Deleted " ++ res.singularName ++ " " ++ item.name ++ "\n") :: r.outLines,
         item.name :: r.issued, item.name :: r.mutated, r.err⟩

/-- The patch loop of `UniversalHandler.HandleAction` (universal.go
159-166), issuing `resources.Patch` with the patch type of the run. -/
def universalPatchLoop (res : Resource) (patchBody patchType : String)
    (patchRes : String → Option String) : List UItem → PatchLoopOut
  | [] => ⟨[], [], [], none⟩
  | item :: rest =>
    match patchRes item.name with
    | some cause =>
        ⟨[], [⟨item.name, patchType, patchBody⟩], [],
         some ("failed to patch " ++ res.singularName ++ " " ++ item.name ++ ": " ++ cause)⟩
    | none =>
        let r := universalPatchLoop res patchBody patchType patchRes rest
        ⟨("Patched " ++ res.singularName ++ " " ++ item.name ++ "\n") :: r.outLines,
         ⟨item.name, patchType, patchBody⟩ :: r.calls, item.name :: r.mutated, r.err⟩

/-- The delete action of `UniversalHandler.HandleAction` from the
matched list on: early return on an empty match, preview + confirmation
unless skipped, cancellation on a declined prompt, then the delete
loop. -/
def universalHandleDelete (res : Resource) (opts : ActionOptions) (input : String)
    (del : String → Option String) (matched : List UItem) : RunResult :=
  if matched.isEmpty then ⟨none, [], [], [], []⟩
  else if !opts.skipConfirm then
    let preview := ("The following " ++ res.pluralName ++ " will be deleted:\n") ::
      matched.map (fun item => universalPreviewLine res opts item) ++ [confirmationPrompt]
    if !askForConfirmation input then
      ⟨none, [], preview ++ ["Deletion cancelled.\n"], [], []⟩
    else
      let r := universalDeleteLoop res del matched
      ⟨r.err, r.outLines, preview, r.issued, r.mutated⟩
  else
    let r := universalDeleteLoop res del matched
    ⟨r.err, r.outLines, [], r.issued, r.mutated⟩

/-- The patch action of `UniversalHandler.HandleAction` from the matched
list on.  The empty patch strategy is defaulted to strategic merge at
the top of `HandleAction`; an empty patch body is an error; then the
same confirm / cancel / loop protocol as delete. -/
def universalHandlePatch (res : Resource) (opts : ActionOptions) (input : String)
    (patchRes : String → Option String) (matched : List UItem) : PatchRunResult :=
  let patchType := if opts.patchStrategy = "" then strategicMergePatchType else opts.patchStrategy
  if matched.isEmpty then ⟨none, [], [], [], []⟩
  else if opts.patch = "" then
    ⟨some "patch content is required for patch action", [], [], [], []⟩
  else if !opts.skipConfirm then
    let preview := ("The following " ++ res.pluralName ++ " will be patched:\n") ::
      matched.map (fun item => universalPreviewLine res opts item) ++ [confirmationPrompt]
    if !askForConfirmation input then
      ⟨none, [], preview ++ ["Patch cancelled.\n"], [], []⟩
    else
      let r := universalPatchLoop res opts.patch patchType patchRes matched
      ⟨r.err, r.outLines, preview, r.calls, r.mutated⟩
  else
    let r := universalPatchLoop res opts.patch patchType patchRes matched
    ⟨r.err, r.outLines, [], r.calls, r.mutated⟩

/-! ### PodHandler.HandleAction: delete, patch, exec (pkg/types/pods.go) -/

/-- The preview line the pod handler writes per pod: always with the
namespace. -/
def podPreviewLine (pod : Pod) : String :=
  "- " ++ pod.name ++ " in namespace " ++ pod.nspace ++ "\n"

/-- The delete loop of `PodHandler.HandleAction`: delete each pod in
matched order; the first failure returns
`failed to delete pod <name>: <cause>`; each success prints
`Deleted pod <name> in namespace <ns>` to standard output. -/
def podDeleteLoop (del : String → Option String) : List Pod → MutationLoopOut
  | [] => ⟨[], [], [], none⟩
  | pod :: rest =>
    match del pod.name with
    | some cause =>
        ⟨[], [pod.name], [], some ("failed to delete pod " ++ pod.name ++ ": " ++ cause)⟩
    | none =>
        let r := podDeleteLoop del rest
        ⟨("Deleted pod " ++ pod.name ++ " in namespace " ++ pod.nspace ++ "\n") :: r.outLines,
         pod.name :: r.issued, pod.name :: r.mutated, r.err⟩

/-- The patch loop of `PodHandler.HandleAction`: the patch type passed
to `Pods(...).Patch` is the constant `k8s_types.StrategicMergePatchType`,
not the strategy from the options. -/
def podPatchLoop (patchBody : String) (patchRes : String → Option String) :
    List Pod → PatchLoopOut
  | [] => ⟨[], [], [], none⟩
  | pod :: rest =>
    match patchRes pod.name with
    | some cause =>
        ⟨[], [⟨pod.name, strategicMergePatchType, patchBody⟩], [],
         some ("failed to patch pod " ++ pod.name ++ ": " ++ cause)⟩
    | none =>
        let r := podPatchLoop patchBody patchRes rest
        ⟨("Patched pod " ++ pod.name ++ " in namespace " ++ pod.nspace ++ "\n") :: r.outLines,
         ⟨pod.name, strategicMergePatchType, patchBody⟩ :: r.calls,
         pod.name :: r.mutated, r.err⟩

/-- The delete action of `PodHandler.HandleAction` from the matched list
on. -/
def podHandleDelete (opts : ActionOptions) (input : String)
    (del : String → Option String) (matched : List Pod) : RunResult :=
  if matched.isEmpty then ⟨none, [], [], [], []⟩
  else if !opts.skipConfirm then
    let preview := "The following pods will be deleted:\n" ::
      matched.map podPreviewLine ++ [confirmationPrompt]
    if !askForConfirmation input then
      ⟨none, [], preview ++ ["Deletion cancelled.\n"], [], []⟩
    else
      let r := podDeleteLoop del matched
      ⟨r.err, r.outLines, preview, r.issued, r.mutated⟩
  else
    let r := podDeleteLoop del matched
    ⟨r.err, r.outLines, [], r.issued, r.mutated⟩

/-- The patch action of `PodHandler.HandleAction` from the matched list
on: an empty patch body is an error, then confirm / cancel / loop. -/
def podHandlePatch (opts : ActionOptions) (input : String)
    (patchRes : String → Option String) (matched : List Pod) : PatchRunResult :=
  if matched.isEmpty then ⟨none, [], [], [], []⟩
  else if opts.patch = "" then
    ⟨some "patch content is required for patch action", [], [], [], []⟩
  else if !opts.skipConfirm then
    let preview := "The following pods will be patched:\n" ::
      matched.map podPreviewLine ++ [confirmationPrompt]
    if !askForConfirmation input then
      ⟨none, [], preview ++ ["Patch cancelled.\n"], [], []⟩
    else
      let r := podPatchLoop opts.patch patchRes matched
      ⟨r.err, r.outLines, preview, r.calls, r.mutated⟩
  else
    let r := podPatchLoop opts.patch patchRes matched
    ⟨r.err, r.outLines, [], r.calls, r.mutated⟩

/-- One remote command-execution stream as `PodHandler.HandleAction`
opens it: the `v1.PodExecOptions` fields (`Command`, `Stdin`, `Stdout`,
`Stderr`, `TTY`) together with the `remotecommand.StreamOptions` wiring
(`Stdin: nil`, `Stdout: options.Streams.Out`,
`Stderr: options.Streams.ErrOut`, `Tty: false`). -/
structure ExecCall where
  podName : String
  podNamespace : String
  command : List String
  stdinAttached : Bool
  stdoutPiped : Bool
  stderrPiped : Bool
  tty : Bool
deriving DecidableEq

/-- Result of the exec action: error, streams attempted (in order), and
the stderr preview writes. -/
structure ExecRunResult where
  err : Option String
  calls : List ExecCall
  errWrites : List String
deriving DecidableEq

/-- Split a character list at every character satisfying `p`,
accumulating the current field in reverse. -/
def splitChars (p : Char → Bool) : List Char → List Char → List (List Char)
  | [], acc => [acc.reverse]
  | c :: cs, acc =>
    if p c then acc.reverse :: splitChars p cs []
    else splitChars p cs (c :: acc)

/-- `strings.Split(s, " ")` as the exec action calls it: split at every
space character; consecutive spaces yield empty fields, other whitespace
is left alone. -/
def goSplitSpace (s : String) : List String :=
  (splitChars (fun c => c == ' ') s.data []).map String.mk

/-- The exec loop of `PodHandler.HandleAction`: per pod in matched
order, build the exec request with `strings.Split(options.Exec, " ")` as
argv, stdin detached, stdout/stderr piped, no TTY; `mkExec` is the
executor-getter failure oracle, `stream` the `StreamWithContext` failure
oracle; either failure aborts naming the pod. -/
def podExecLoop (execStr : String) (mkExec stream : String → Option String) :
    List Pod → List ExecCall × Option String
  | [] => ([], none)
  | pod :: rest =>
    match mkExec pod.name with
    | some cause =>
        ([], some ("failed to create executor for pod " ++ pod.name ++ ": " ++ cause))
    | none =>
      let call : ExecCall :=
        ⟨pod.name, pod.nspace, goSplitSpace execStr, false, true, true, false⟩
      match stream pod.name with
      | some cause =>
          ([call], some ("failed to execute command on pod " ++ pod.name ++ ": " ++ cause))
      | none =>
          let r := podExecLoop execStr mkExec stream rest
          (call :: r.1, r.2)

/-- The exec action of `PodHandler.HandleAction` from the matched list
on: an empty command string is an error (before any stream), then the
same confirm / cancel protocol, then the exec loop. -/
def podHandleExec (opts : ActionOptions) (input : String)
    (mkExec stream : String → Option String) (matched : List Pod) : ExecRunResult :=
  if matched.isEmpty then ⟨none, [], []⟩
  else if opts.exec = "" then
    ⟨some "exec command is required for exec action", [], []⟩
  else if !opts.skipConfirm then
    let preview := "The following pods will have the command executed:\n" ::
      matched.map podPreviewLine ++ [confirmationPrompt]
    if !askForConfirmation input then
      ⟨none, [], preview ++ ["Execution cancelled.\n"]⟩
    else
      let r := podExecLoop opts.exec mkExec stream matched
      ⟨r.2, r.1, preview⟩
  else
    let r := podExecLoop opts.exec mkExec stream matched
    ⟨r.2, r.1, []⟩

/-- The exec argv as the claim reads it, written from the words of the spec
for comparison with the source: "the command split on whitespace into
argv" (split at every whitespace character). -/
def splitOnWhitespaceSpec (s : String) : List String :=
  (splitChars Char.isWhitespace s.data []).map String.mk

/-! ## Theorems -/

/-- C1: with the restarted filter active, a pod whose per-container
restart counts sum to zero never matches, and a pod whose counts sum to
at least 1 matches whenever the other pod predicates accept it. -/
theorem pod_restarted_filter_semantics (now : Int) (opts : ActionOptions) (pod : Pod)
    (hres : opts.restarted = true) :
    (totalRestarts pod = 0 → handlersGetMatcher now opts pod = false)
    ∧ (1 ≤ totalRestarts pod → getMatcher now opts pod = true →
        handlersGetMatcher now opts pod = true) := by
  constructor
  · intro hzero
    simp [handlersGetMatcher, hres, hzero]
  · intro hone hrest
    simp [handlersGetMatcher, hres, hrest, hone]

def optsRestarted : ActionOptions :=
  ⟨"default", none, 0, 0, true, "", "", "", "", none, true, none⟩

def podNoRestarts : Pod := ⟨"a", "default", 0, "Running", "", "", [0, 0]⟩

def podOneRestart : Pod := ⟨"b", "default", 0, "Running", "", "", [1]⟩

theorem pod_restarted_filter_semantics_witness :
    handlersGetMatcher 0 optsRestarted podNoRestarts = false ∧
    handlersGetMatcher 0 optsRestarted podOneRestart = true :=
  ⟨(pod_restarted_filter_semantics 0 optsRestarted podNoRestarts rfl).1 rfl,
   (pod_restarted_filter_semantics 0 optsRestarted podOneRestart rfl).2
     (by decide) (by rfl)⟩

/-- C2: with a node-name pattern active, a pod with neither a scheduled
nor a nominated node never matches; when the other predicates accept the
pod, the pattern is applied to the scheduled node name, falling back to
the nominated node name when the scheduled one is empty. -/
theorem pod_node_name_filter_semantics (now : Int) (opts : ActionOptions) (pod : Pod)
    (regex : String → Bool) (hreg : opts.nodeNameRegex = some regex) :
    (pod.nodeName = "" → pod.nominatedNodeName = "" → getMatcher now opts pod = false)
    ∧ ((match opts.nameRegex with
        | some r => !(r pod.name)
        | none => false) = false →
       ¬(opts.minAge ≠ 0 ∧ now - pod.creationTimestamp < opts.minAge) →
       ¬(opts.maxAge ≠ 0 ∧ now - pod.creationTimestamp > opts.maxAge) →
       ¬(opts.podStatus ≠ "" ∧ pod.phase ≠ opts.podStatus) →
       (pod.nodeName ≠ "" → getMatcher now opts pod = regex pod.nodeName)
       ∧ (pod.nodeName = "" → pod.nominatedNodeName ≠ "" →
           getMatcher now opts pod = regex pod.nominatedNodeName)) := by
  constructor
  · intro h1 h2
    simp only [getMatcher, hreg, h1, h2]
    split_ifs <;> simp_all
  · intro hname hmin hmax hstatus
    constructor
    · intro hnn
      simp only [getMatcher, hname, hreg, Bool.false_eq_true, if_false,
        if_neg hmin, if_neg hmax, if_neg hstatus]
      simp [hnn]
    · intro hnn hnom
      simp only [getMatcher, hname, hreg, Bool.false_eq_true, if_false,
        if_neg hmin, if_neg hmax, if_neg hstatus, hnn]
      simp [hnom]

def optsNodeFilter : ActionOptions :=
  ⟨"default", none, 0, 0, true, "", "", "", "",
   some (fun s => s == "node-1"), false, none⟩

def podOnNode : Pod := ⟨"a", "default", 0, "Running", "node-1", "", []⟩

def podNominated : Pod := ⟨"b", "default", 0, "Pending", "", "node-1", []⟩

def podUnscheduled : Pod := ⟨"c", "default", 0, "Pending", "", "", []⟩

theorem pod_node_name_filter_semantics_witness :
    getMatcher 0 optsNodeFilter podUnscheduled = false ∧
    getMatcher 0 optsNodeFilter podOnNode = true ∧
    getMatcher 0 optsNodeFilter podNominated = true := by
  refine ⟨(pod_node_name_filter_semantics 0 optsNodeFilter podUnscheduled _ rfl).1 rfl rfl,
    ?_, ?_⟩
  · have h := ((pod_node_name_filter_semantics 0 optsNodeFilter podOnNode _ rfl).2
      rfl (by decide) (by decide) (by decide)).1 (by decide)
    simpa using h
  · have h := ((pod_node_name_filter_semantics 0 optsNodeFilter podNominated _ rfl).2
      rfl (by decide) (by decide) (by decide)).2 rfl (by decide)
    simpa using h

/-- C3 (code bug): `MatchesWithGoJQ` counts an emitted value of exactly
`false` as a match: the `isBool && b` check falls through to the
`v != nil` check, and a Go interface holding the boolean `false` is not
nil.  This contradicts the comment inside the function ("treat first truthy
as match") and the claim.  Evaluated both at the raw value stream and
through `resourceMatches` with a query emitting only `false` (as
`PrepareQuery("true")` does on an empty document, whose `length > 0` is
false). -/
theorem matchesWithGoJQ_false_value_counts_as_match :
    matchesWithGoJQ [GoVal.bool false] = Except.ok true ∧
    resourceMatches 0
      ⟨"default", none, 0, 0, true, "", "", "", "", none, false,
        some (fun _ => [GoVal.bool false])⟩
      ⟨"cm", "default", 0, GoVal.obj []⟩ = true := by
  constructor <;> rfl

/-- C6: both matchers compare `now - creationTimestamp` with the age
bounds so that an active min age means "at least this old" and an
active max age "at most this old"; a candidate created exactly at `now`
never satisfies a positive min age and always passes any max age ≥ 0. -/
theorem age_bounds_semantics (now : Int) (opts : ActionOptions) (item : UItem) (pod : Pod)
    (hname : (match opts.nameRegex with
              | some regex => !(regex item.name)
              | none => false) = false)
    (hjq : opts.jqQuery = none)
    (hpodname : (match opts.nameRegex with
                 | some regex => !(regex pod.name)
                 | none => false) = false)
    (hstatus : ¬(opts.podStatus ≠ "" ∧ pod.phase ≠ opts.podStatus))
    (hnode : opts.nodeNameRegex = none) :
    (resourceMatches now opts item = true ↔
      ((0 < opts.minAge → opts.minAge ≤ now - item.creationTimestamp) ∧
       (0 < opts.maxAge → now - item.creationTimestamp ≤ opts.maxAge)))
    ∧ (item.creationTimestamp = now → 0 < opts.minAge →
        resourceMatches now opts item = false)
    ∧ (item.creationTimestamp = now → opts.minAge ≤ 0 → 0 ≤ opts.maxAge →
        resourceMatches now opts item = true)
    ∧ (pod.creationTimestamp = now → 0 < opts.minAge → getMatcher now opts pod = false)
    ∧ (pod.creationTimestamp = now → opts.minAge ≤ 0 → 0 ≤ opts.maxAge →
        getMatcher now opts pod = true) := by
  have hr : resourceMatches now opts item =
      (if opts.minAge > 0 ∧ now - item.creationTimestamp < opts.minAge then false
       else if opts.maxAge > 0 ∧ now - item.creationTimestamp > opts.maxAge then false
       else true) := by
    simp only [resourceMatches, hname, hjq, Bool.false_eq_true, if_false]
  have hg : getMatcher now opts pod =
      (if opts.minAge ≠ 0 ∧ now - pod.creationTimestamp < opts.minAge then false
       else if opts.maxAge ≠ 0 ∧ now - pod.creationTimestamp > opts.maxAge then false
       else true) := by
    simp only [getMatcher, hpodname, hnode, Bool.false_eq_true, if_false, if_neg hstatus]
  refine ⟨?_, ?_, ?_, ?_, ?_⟩
  · rw [hr]
    split_ifs with h1 h2 <;> constructor <;> intro h <;> try omega
    · exact absurd h (by simp)
    · exact absurd h (by simp)
    · rfl
  · intro hc hmin
    rw [hr, if_pos (by omega)]
  · intro hc hmin hmax
    rw [hr, if_neg (by omega), if_neg (by omega)]
  · intro hc hmin
    rw [hg, if_pos (by omega)]
  · intro hc hmin hmax
    rcases lt_or_eq_of_le hmin with hlt | heq
    · rw [hg, if_neg (by omega), if_neg (by omega)]
    · rw [hg, if_neg (by omega), if_neg (by omega)]

/-- C8: a jq evaluation error on one candidate makes only that candidate
a non-match — the match phase is a total function and the other
candidates are unaffected — while a malformed expression aborts
validation with a configuration error, before the fetch is performed. -/
theorem jq_eval_error_nonmatch_parse_error_fatal
    (now : Int) (opts : ActionOptions) (item : UItem) (q : GoQuery) (e : String)
    (xs ys : List UItem)
    (hq : opts.jqQuery = some q)
    (herr : matchesWithGoJQ (q item.doc) = Except.error e) :
    resourceMatches now opts item = false
    ∧ matchResources now opts (xs ++ item :: ys) =
        matchResources now opts xs ++ matchResources now opts ys
    ∧ (∀ (parse : String → Except String GoQuery) (jqFilter msg : String)
         (fetch : Unit → List UItem),
        jqFilter ≠ "" → parse jqFilter = Except.error msg →
        findPipeline parse jqFilter fetch now opts =
          (Except.error ("invalid jq filter \"" ++ jqFilter ++ "\": " ++ msg), false)) := by
  have h1 : resourceMatches now opts item = false := by
    simp only [resourceMatches, hq]
    split_ifs <;> simp [herr]
  refine ⟨h1, ?_, ?_⟩
  · simp [matchResources, List.filter_append, h1]
  · intro parse jqFilter msg fetch hne hperr
    simp [findPipeline, validateJQFilter, hne, hperr]

def jqErrQuery : GoQuery := fun _ => [GoVal.err "boom"]

def optsJqErr : ActionOptions :=
  ⟨"default", none, 0, 0, true, "", "", "", "", none, false, some jqErrQuery⟩

def itemPlain : UItem := ⟨"cm", "default", 0, GoVal.obj []⟩

def itemOther : UItem := ⟨"other", "default", 0, GoVal.obj []⟩

theorem jq_eval_error_nonmatch_parse_error_fatal_witness :
    resourceMatches 0 optsJqErr itemPlain = false
    ∧ matchResources 0 optsJqErr ([itemOther] ++ itemPlain :: []) =
        matchResources 0 optsJqErr [itemOther] ++ matchResources 0 optsJqErr []
    ∧ findPipeline (fun _ => Except.error "oops") ".bad[" (fun _ => []) 0 optsJqErr =
        (Except.error ("invalid jq filter \".bad[\": " ++ "oops"), false) := by
  have h := jq_eval_error_nonmatch_parse_error_fatal 0 optsJqErr itemPlain jqErrQuery
    ("jq evaluation error: " ++ "boom") [itemOther] [] rfl rfl
  exact ⟨h.1, h.2.1, h.2.2 (fun _ => Except.error "oops") ".bad[" "oops"
    (fun _ => []) (by decide) rfl⟩

/-! Helper lemmas about the four mutation loops: the fail-fast shape and
the all-success shape, each proved by induction on the prefix. -/

lemma universalDeleteLoop_fail (res : Resource) (del : String → Option String)
    (pre : List UItem) (bad : UItem) (rest : List UItem) (cause : String)
    (hpre : ∀ i ∈ pre, del i.name = none) (hbad : del bad.name = some cause) :
    universalDeleteLoop res del (pre ++ bad :: rest) =
      ⟨pre.map (fun i => "Deleted " ++ res.singularName ++ " " ++ i.name ++ "\n"),
       pre.map (fun i => i.name) ++ [bad.name],
       pre.map (fun i => i.name),
       some ("failed to delete " ++ res.singularName ++ " " ++ bad.name ++ ": " ++ cause)⟩ := by
  induction pre with
  | nil => simp [universalDeleteLoop, hbad]
  | cons a as ih =>
    have ha : del a.name = none := hpre a (by simp)
    have ih' := ih (fun i hi => hpre i (by simp [hi]))
    simp [universalDeleteLoop, ha, ih']

lemma universalDeleteLoop_all_ok (res : Resource) (del : String → Option String)
    (items : List UItem) (hall : ∀ i ∈ items, del i.name = none) :
    universalDeleteLoop res del items =
      ⟨items.map (fun i => "Deleted " ++ res.singularName ++ " " ++ i.name ++ "\n"),
       items.map (fun i => i.name), items.map (fun i => i.name), none⟩ := by
  induction items with
  | nil => simp [universalDeleteLoop]
  | cons a as ih =>
    have ha : del a.name = none := hall a (by simp)
    have ih' := ih (fun i hi => hall i (by simp [hi]))
    simp [universalDeleteLoop, ha, ih']

lemma universalPatchLoop_fail (res : Resource) (body t : String)
    (patchRes : String → Option String)
    (pre : List UItem) (bad : UItem) (rest : List UItem) (cause : String)
    (hpre : ∀ i ∈ pre, patchRes i.name = none) (hbad : patchRes bad.name = some cause) :
    universalPatchLoop res body t patchRes (pre ++ bad :: rest) =
      ⟨pre.map (fun i => "Patched " ++ res.singularName ++ " " ++ i.name ++ "\n"),
       pre.map (fun i => (⟨i.name, t, body⟩ : PatchCall)) ++ [⟨bad.name, t, body⟩],
       pre.map (fun i => i.name),
       some ("failed to patch " ++ res.singularName ++ " " ++ bad.name ++ ": " ++ cause)⟩ := by
  induction pre with
  | nil => simp [universalPatchLoop, hbad]
  | cons a as ih =>
    have ha : patchRes a.name = none := hpre a (by simp)
    have ih' := ih (fun i hi => hpre i (by simp [hi]))
    simp [universalPatchLoop, ha, ih']

lemma universalPatchLoop_all_ok (res : Resource) (body t : String)
    (patchRes : String → Option String)
    (items : List UItem) (hall : ∀ i ∈ items, patchRes i.name = none) :
    universalPatchLoop res body t patchRes items =
      ⟨items.map (fun i => "Patched " ++ res.singularName ++ " " ++ i.name ++ "\n"),
       items.map (fun i => (⟨i.name, t, body⟩ : PatchCall)),
       items.map (fun i => i.name), none⟩ := by
  induction items with
  | nil => simp [universalPatchLoop]
  | cons a as ih =>
    have ha : patchRes a.name = none := hall a (by simp)
    have ih' := ih (fun i hi => hall i (by simp [hi]))
    simp [universalPatchLoop, ha, ih']

lemma podDeleteLoop_fail (del : String → Option String)
    (pre : List Pod) (bad : Pod) (rest : List Pod) (cause : String)
    (hpre : ∀ p ∈ pre, del p.name = none) (hbad : del bad.name = some cause) :
    podDeleteLoop del (pre ++ bad :: rest) =
      ⟨pre.map (fun p => "Deleted pod " ++ p.name ++ " in namespace " ++ p.nspace ++ "\n"),
       pre.map (fun p => p.name) ++ [bad.name],
       pre.map (fun p => p.name),
       some ("failed to delete pod " ++ bad.name ++ ": " ++ cause)⟩ := by
  induction pre with
  | nil => simp [podDeleteLoop, hbad]
  | cons a as ih =>
    have ha : del a.name = none := hpre a (by simp)
    have ih' := ih (fun p hp => hpre p (by simp [hp]))
    simp [podDeleteLoop, ha, ih']

lemma podDeleteLoop_all_ok (del : String → Option String)
    (pods : List Pod) (hall : ∀ p ∈ pods, del p.name = none) :
    podDeleteLoop del pods =
      ⟨pods.map (fun p => "Deleted pod " ++ p.name ++ " in namespace " ++ p.nspace ++ "\n"),
       pods.map (fun p => p.name), pods.map (fun p => p.name), none⟩ := by
  induction pods with
  | nil => simp [podDeleteLoop]
  | cons a as ih =>
    have ha : del a.name = none := hall a (by simp)
    have ih' := ih (fun p hp => hall p (by simp [hp]))
    simp [podDeleteLoop, ha, ih']

lemma podPatchLoop_fail (body : String) (patchRes : String → Option String)
    (pre : List Pod) (bad : Pod) (rest : List Pod) (cause : String)
    (hpre : ∀ p ∈ pre, patchRes p.name = none) (hbad : patchRes bad.name = some cause) :
    podPatchLoop body patchRes (pre ++ bad :: rest) =
      ⟨pre.map (fun p => "Patched pod " ++ p.name ++ " in namespace " ++ p.nspace ++ "\n"),
       pre.map (fun p => (⟨p.name, strategicMergePatchType, body⟩ : PatchCall)) ++
         [⟨bad.name, strategicMergePatchType, body⟩],
       pre.map (fun p => p.name),
       some ("failed to patch pod " ++ bad.name ++ ": " ++ cause)⟩ := by
  induction pre with
  | nil => simp [podPatchLoop, hbad]
  | cons a as ih =>
    have ha : patchRes a.name = none := hpre a (by simp)
    have ih' := ih (fun p hp => hpre p (by simp [hp]))
    simp [podPatchLoop, ha, ih']

lemma podPatchLoop_all_ok (body : String) (patchRes : String → Option String)
    (pods : List Pod) (hall : ∀ p ∈ pods, patchRes p.name = none) :
    podPatchLoop body patchRes pods =
      ⟨pods.map (fun p => "Patched pod " ++ p.name ++ " in namespace " ++ p.nspace ++ "\n"),
       pods.map (fun p => (⟨p.name, strategicMergePatchType, body⟩ : PatchCall)),
       pods.map (fun p => p.name), none⟩ := by
  induction pods with
  | nil => simp [podPatchLoop]
  | cons a as ih =>
    have ha : patchRes a.name = none := hall a (by simp)
    have ih' := ih (fun p hp => hall p (by simp [hp]))
    simp [podPatchLoop, ha, ih']

def optsMinAge : ActionOptions :=
  ⟨"default", none, 5, 0, true, "", "", "", "", none, false, none⟩

def optsMaxAge : ActionOptions :=
  ⟨"default", none, 0, 5, true, "", "", "", "", none, false, none⟩

def itemAtNow : UItem := ⟨"cm", "default", 7, GoVal.obj []⟩

def podAtNow : Pod := ⟨"p", "default", 7, "Running", "", "", []⟩

theorem age_bounds_semantics_witness :
    resourceMatches 7 optsMinAge itemAtNow = false ∧
    resourceMatches 7 optsMaxAge itemAtNow = true ∧
    getMatcher 7 optsMinAge podAtNow = false ∧
    getMatcher 7 optsMaxAge podAtNow = true := by
  refine ⟨(age_bounds_semantics 7 optsMinAge itemAtNow podAtNow rfl rfl rfl
      (by decide) rfl).2.1 rfl (by decide),
    (age_bounds_semantics 7 optsMaxAge itemAtNow podAtNow rfl rfl rfl
      (by decide) rfl).2.2.1 rfl (by decide) (by decide),
    (age_bounds_semantics 7 optsMinAge itemAtNow podAtNow rfl rfl rfl
      (by decide) rfl).2.2.2.1 rfl (by decide),
    (age_bounds_semantics 7 optsMaxAge itemAtNow podAtNow rfl rfl rfl
      (by decide) rfl).2.2.2.2 rfl (by decide) (by decide)⟩

/-- C4: for delete and patch with confirmation not skipped, the action
proceeds exactly when the line read from standard input, trimmed and
lower-cased, is `y` or `yes`; on any other input the run mutates
nothing, writes a cancellation message to standard error, and returns
success. -/
theorem confirmation_gate_semantics
    (res : Resource) (opts : ActionOptions) (input : String)
    (del patchRes : String → Option String)
    (matched : List UItem) (pods : List Pod)
    (hskip : opts.skipConfirm = false)
    (hm : matched ≠ []) (hp : pods ≠ []) (hpatch : opts.patch ≠ "") :
    (askForConfirmation input = true ↔
      goTrimSpace (goToLower input) = "y" ∨ goTrimSpace (goToLower input) = "yes")
    ∧ (askForConfirmation input = false →
        (universalHandleDelete res opts input del matched).err = none
        ∧ (universalHandleDelete res opts input del matched).mutated = []
        ∧ (universalHandleDelete res opts input del matched).issued = []
        ∧ "Deletion cancelled.\n" ∈ (universalHandleDelete res opts input del matched).errWrites
        ∧ (universalHandlePatch res opts input patchRes matched).err = none
        ∧ (universalHandlePatch res opts input patchRes matched).mutated = []
        ∧ (universalHandlePatch res opts input patchRes matched).calls = []
        ∧ "Patch cancelled.\n" ∈ (universalHandlePatch res opts input patchRes matched).errWrites
        ∧ (podHandleDelete opts input del pods).err = none
        ∧ (podHandleDelete opts input del pods).mutated = []
        ∧ (podHandleDelete opts input del pods).issued = []
        ∧ "Deletion cancelled.\n" ∈ (podHandleDelete opts input del pods).errWrites
        ∧ (podHandlePatch opts input patchRes pods).err = none
        ∧ (podHandlePatch opts input patchRes pods).mutated = []
        ∧ (podHandlePatch opts input patchRes pods).calls = []
        ∧ "Patch cancelled.\n" ∈ (podHandlePatch opts input patchRes pods).errWrites)
    ∧ (askForConfirmation input = true →
        (universalHandleDelete res opts input del matched).err =
          (universalDeleteLoop res del matched).err
        ∧ (universalHandleDelete res opts input del matched).outWrites =
          (universalDeleteLoop res del matched).outLines
        ∧ (universalHandleDelete res opts input del matched).mutated =
          (universalDeleteLoop res del matched).mutated
        ∧ (universalHandlePatch res opts input patchRes matched).mutated =
          (universalPatchLoop res opts.patch
            (if opts.patchStrategy = "" then strategicMergePatchType else opts.patchStrategy)
            patchRes matched).mutated
        ∧ (podHandleDelete opts input del pods).mutated =
          (podDeleteLoop del pods).mutated
        ∧ (podHandlePatch opts input patchRes pods).mutated =
          (podPatchLoop opts.patch patchRes pods).mutated) := by
  cases matched with
  | nil => exact absurd rfl hm
  | cons a as =>
    cases pods with
    | nil => exact absurd rfl hp
    | cons b bs =>
      refine ⟨by simp [askForConfirmation], ?_, ?_⟩
      · intro h
        simp [universalHandleDelete, universalHandlePatch, podHandleDelete,
          podHandlePatch, hskip, h, hpatch]
      · intro h
        simp [universalHandleDelete, universalHandlePatch, podHandleDelete,
          podHandlePatch, hskip, h, hpatch]

def cmResource : Resource := ⟨"configmaps", "configmap", true⟩

def optsConfirm : ActionOptions :=
  ⟨"default", none, 0, 0, false, "", "pbody", "", "", none, false, none⟩

def cmItem : UItem := ⟨"test-cm", "default", 0, GoVal.obj []⟩

def podPlain : Pod := ⟨"test-pod", "default", 0, "Running", "", "", []⟩

theorem confirmation_gate_semantics_witness :
    askForConfirmation "n" = false
    ∧ (universalHandleDelete cmResource optsConfirm "n" (fun _ => none) [cmItem]).mutated = []
    ∧ "Deletion cancelled.\n" ∈
        (universalHandleDelete cmResource optsConfirm "n" (fun _ => none) [cmItem]).errWrites
    ∧ (podHandlePatch optsConfirm "n" (fun _ => none) [podPlain]).err = none
    ∧ (universalHandleDelete cmResource optsConfirm " YES " (fun _ => none) [cmItem]).mutated =
        (universalDeleteLoop cmResource (fun _ => none) [cmItem]).mutated := by
  have hno := (confirmation_gate_semantics cmResource optsConfirm "n"
    (fun _ => none) (fun _ => none) [cmItem] [podPlain] rfl (by simp) (by simp)
    (by decide)).2.1 (by decide)
  have hyes := (confirmation_gate_semantics cmResource optsConfirm " YES "
    (fun _ => none) (fun _ => none) [cmItem] [podPlain] rfl (by simp) (by simp)
    (by decide)).2.2 (by decide)
  exact ⟨by decide, hno.2.1, hno.2.2.2.1, hno.2.2.2.2.2.2.2.2.2.2.2.2.1, hyes.2.2.1⟩

/-- C5: for a confirmed delete or patch, mutations are issued one at a
time in matched order; a per-item failure returns immediately with an
error naming the kind, the item and the cause; exactly the earlier
items have been mutated, each reported with one line on standard
output, and no later item is touched. -/
theorem mutation_fail_fast
    (res : Resource) (opts : ActionOptions) (input : String)
    (del patchRes : String → Option String)
    (pre : List UItem) (bad : UItem) (rest : List UItem)
    (ppre : List Pod) (pbad : Pod) (prest : List Pod) (cause : String)
    (hskip : opts.skipConfirm = false) (hyes : askForConfirmation input = true)
    (hpatch : opts.patch ≠ "")
    (hpre : ∀ i ∈ pre, del i.name = none) (hbad : del bad.name = some cause)
    (hppre : ∀ p ∈ ppre, del p.name = none) (hpbad : del pbad.name = some cause)
    (hqre : ∀ i ∈ pre, patchRes i.name = none) (hqbad : patchRes bad.name = some cause)
    (hqppre : ∀ p ∈ ppre, patchRes p.name = none)
    (hqpbad : patchRes pbad.name = some cause) :
    ((universalHandleDelete res opts input del (pre ++ bad :: rest)).err =
        some ("failed to delete " ++ res.singularName ++ " " ++ bad.name ++ ": " ++ cause)
      ∧ (universalHandleDelete res opts input del (pre ++ bad :: rest)).mutated =
        pre.map (fun i => i.name)
      ∧ (universalHandleDelete res opts input del (pre ++ bad :: rest)).outWrites =
        pre.map (fun i => "Deleted " ++ res.singularName ++ " " ++ i.name ++ "\n")
      ∧ (universalHandleDelete res opts input del (pre ++ bad :: rest)).issued =
        pre.map (fun i => i.name) ++ [bad.name])
    ∧ ((podHandleDelete opts input del (ppre ++ pbad :: prest)).err =
        some ("failed to delete pod " ++ pbad.name ++ ": " ++ cause)
      ∧ (podHandleDelete opts input del (ppre ++ pbad :: prest)).mutated =
        ppre.map (fun p => p.name)
      ∧ (podHandleDelete opts input del (ppre ++ pbad :: prest)).outWrites =
        ppre.map (fun p => "Deleted pod " ++ p.name ++ " in namespace " ++ p.nspace ++ "\n")
      ∧ (podHandleDelete opts input del (ppre ++ pbad :: prest)).issued =
        ppre.map (fun p => p.name) ++ [pbad.name])
    ∧ ((universalHandlePatch res opts input patchRes (pre ++ bad :: rest)).err =
        some ("failed to patch " ++ res.singularName ++ " " ++ bad.name ++ ": " ++ cause)
      ∧ (universalHandlePatch res opts input patchRes (pre ++ bad :: rest)).mutated =
        pre.map (fun i => i.name)
      ∧ (universalHandlePatch res opts input patchRes (pre ++ bad :: rest)).outWrites =
        pre.map (fun i => "Patched " ++ res.singularName ++ " " ++ i.name ++ "\n"))
    ∧ ((podHandlePatch opts input patchRes (ppre ++ pbad :: prest)).err =
        some ("failed to patch pod " ++ pbad.name ++ ": " ++ cause)
      ∧ (podHandlePatch opts input patchRes (ppre ++ pbad :: prest)).mutated =
        ppre.map (fun p => p.name)
      ∧ (podHandlePatch opts input patchRes (ppre ++ pbad :: prest)).outWrites =
        ppre.map (fun p => "Patched pod " ++ p.name ++ " in namespace " ++ p.nspace ++ "\n")) := by
  have hu := universalDeleteLoop_fail res del pre bad rest cause hpre hbad
  have hq := universalPatchLoop_fail res opts.patch
    (if opts.patchStrategy = "" then strategicMergePatchType else opts.patchStrategy)
    patchRes pre bad rest cause hqre hqbad
  have hd := podDeleteLoop_fail del ppre pbad prest cause hppre hpbad
  have hqp := podPatchLoop_fail opts.patch patchRes ppre pbad prest cause hqppre hqpbad
  refine ⟨?_, ?_, ?_, ?_⟩
  · simp [universalHandleDelete, hskip, hyes, hu]
  · simp [podHandleDelete, hskip, hyes, hd]
  · simp [universalHandlePatch, hskip, hyes, hpatch, hq]
  · simp [podHandlePatch, hskip, hyes, hpatch, hqp]

def cmGood : UItem := ⟨"cm-good", "default", 0, GoVal.obj []⟩

def cmBad : UItem := ⟨"cm-bad", "default", 0, GoVal.obj []⟩

def cmLater : UItem := ⟨"cm-later", "default", 0, GoVal.obj []⟩

def podGood : Pod := ⟨"pod-good", "default", 0, "Running", "", "", []⟩

def podBad : Pod := ⟨"pod-bad", "default", 0, "Running", "", "", []⟩

/-- Mutation oracle failing exactly on the items named `cm-bad` and
`pod-bad`. -/
def failOnBad : String → Option String := fun n =>
  if n = "cm-bad" ∨ n = "pod-bad" then some "server says no" else none

theorem mutation_fail_fast_witness :
    (universalHandleDelete cmResource optsConfirm "y" failOnBad
        ([cmGood] ++ cmBad :: [cmLater])).err =
      some ("failed to delete " ++ "configmap" ++ " " ++ "cm-bad" ++ ": " ++ "server says no")
    ∧ (universalHandleDelete cmResource optsConfirm "y" failOnBad
        ([cmGood] ++ cmBad :: [cmLater])).mutated = ["cm-good"]
    ∧ (podHandleDelete optsConfirm "y" failOnBad ([podGood] ++ podBad :: [])).issued =
      ["pod-good", "pod-bad"] := by
  have h := mutation_fail_fast cmResource optsConfirm "y" failOnBad failOnBad
    [cmGood] cmBad [cmLater] [podGood] podBad [] "server says no"
    rfl (by decide) (by decide)
    (by intro i hi; simp at hi; subst hi; rfl) rfl
    (by intro p hp; simp at hp; subst hp; rfl) rfl
    (by intro i hi; simp at hi; subst hi; rfl) rfl
    (by intro p hp; simp at hp; subst hp; rfl) rfl
  exact ⟨h.1.1, by simpa using h.1.2.1, by simpa using h.2.1.2.2.2⟩

/-- C7 counterexample: the success line of the generic handler omits the
namespace even for a namespaced kind — deleting configmap `test-cm` in
namespace `default` writes `Deleted configmap test-cm\n`, not the
`... in namespace default\n` form the claim requires for namespaced
kinds. -/
theorem universal_delete_line_omits_namespace :
    (universalHandleDelete cmResource
        ⟨"default", none, 0, 0, true, "", "", "", "", none, false, none⟩
        "" (fun _ => none) [cmItem]).outWrites = ["Deleted configmap test-cm\n"]
    ∧ "Deleted configmap test-cm\n" ≠ "Deleted configmap test-cm in namespace default\n" := by
  exact ⟨rfl, by decide⟩

/-- C7 (amended): the per-item success line of the pod handler is
`Deleted pod <name> in namespace <ns>\n` / `Patched pod <name> in
namespace <ns>\n`; the generic handler always writes the namespace-less
`Deleted <kind> <name>\n` / `Patched <kind> <name>\n`, whether or not
the kind is namespaced. -/
theorem per_item_success_line_formats
    (res : Resource) (del patchRes : String → Option String)
    (items : List UItem) (pods : List Pod) (body t : String)
    (hall : ∀ i ∈ items, del i.name = none)
    (hallp : ∀ i ∈ items, patchRes i.name = none)
    (hpall : ∀ p ∈ pods, del p.name = none)
    (hpallp : ∀ p ∈ pods, patchRes p.name = none) :
    (universalDeleteLoop res del items).outLines =
      items.map (fun i => "Deleted " ++ res.singularName ++ " " ++ i.name ++ "\n")
    ∧ (universalPatchLoop res body t patchRes items).outLines =
      items.map (fun i => "Patched " ++ res.singularName ++ " " ++ i.name ++ "\n")
    ∧ (podDeleteLoop del pods).outLines =
      pods.map (fun p => "Deleted pod " ++ p.name ++ " in namespace " ++ p.nspace ++ "\n")
    ∧ (podPatchLoop body patchRes pods).outLines =
      pods.map (fun p => "Patched pod " ++ p.name ++ " in namespace " ++ p.nspace ++ "\n") := by
  refine ⟨?_, ?_, ?_, ?_⟩
  · rw [universalDeleteLoop_all_ok res del items hall]
  · rw [universalPatchLoop_all_ok res body t patchRes items hallp]
  · rw [podDeleteLoop_all_ok del pods hpall]
  · rw [podPatchLoop_all_ok body patchRes pods hpallp]

theorem per_item_success_line_formats_witness :
    (universalDeleteLoop cmResource (fun _ => none) [cmItem]).outLines =
      ["Deleted configmap test-cm\n"]
    ∧ (podDeleteLoop (fun _ => none) [podPlain]).outLines =
      ["Deleted pod test-pod in namespace default\n"]
    ∧ (podPatchLoop "pbody" (fun _ => none) [podPlain]).outLines =
      ["Patched pod test-pod in namespace default\n"] := by
  have h := per_item_success_line_formats cmResource (fun _ => none) (fun _ => none)
    [cmItem] [podPlain] "pbody" strategicMergePatchType
    (fun _ _ => rfl) (fun _ _ => rfl) (fun _ _ => rfl) (fun _ _ => rfl)
  exact ⟨by simpa using h.1, by simpa using h.2.2.1, by simpa using h.2.2.2⟩

/-! Helper lemmas about the exec loop. -/

lemma podExecLoop_all_ok (execStr : String) (mkExec stream : String → Option String)
    (pods : List Pod)
    (h1 : ∀ p ∈ pods, mkExec p.name = none) (h2 : ∀ p ∈ pods, stream p.name = none) :
    podExecLoop execStr mkExec stream pods =
      (pods.map (fun p =>
        (⟨p.name, p.nspace, goSplitSpace execStr, false, true, true, false⟩ : ExecCall)),
       none) := by
  induction pods with
  | nil => simp [podExecLoop]
  | cons a as ih =>
    have ha1 : mkExec a.name = none := h1 a (by simp)
    have ha2 : stream a.name = none := h2 a (by simp)
    have ih' := ih (fun p hp => h1 p (by simp [hp])) (fun p hp => h2 p (by simp [hp]))
    simp [podExecLoop, ha1, ha2, ih']

lemma podExecLoop_stream_fail (execStr : String) (mkExec stream : String → Option String)
    (ppre : List Pod) (pbad : Pod) (prest : List Pod) (cause : String)
    (h1 : ∀ p ∈ ppre, mkExec p.name = none) (h2 : ∀ p ∈ ppre, stream p.name = none)
    (h3 : mkExec pbad.name = none) (h4 : stream pbad.name = some cause) :
    podExecLoop execStr mkExec stream (ppre ++ pbad :: prest) =
      (ppre.map (fun p =>
          (⟨p.name, p.nspace, goSplitSpace execStr, false, true, true, false⟩ : ExecCall))
        ++ [⟨pbad.name, pbad.nspace, goSplitSpace execStr, false, true, true, false⟩],
       some ("failed to execute command on pod " ++ pbad.name ++ ": " ++ cause)) := by
  induction ppre with
  | nil => simp [podExecLoop, h3, h4]
  | cons a as ih =>
    have ha1 : mkExec a.name = none := h1 a (by simp)
    have ha2 : stream a.name = none := h2 a (by simp)
    have ih' := ih (fun p hp => h1 p (by simp [hp])) (fun p hp => h2 p (by simp [hp]))
    simp [podExecLoop, ha1, ha2, ih']

/-- C9 counterexample: the exec argv is `strings.Split(cmd, " ")` — a
split on the space character only — not a split on whitespace: for the
command string containing a tab, the issued argv is the single element
`a\tb`, while the whitespace split of the claim gives `[a, b]`. -/
theorem exec_argv_not_whitespace_split :
    (podHandleExec ⟨"default", none, 0, 0, true, "", "", "", "a\tb", none, false, none⟩
        "" (fun _ => none) (fun _ => none)
        [⟨"p", "default", 0, "Running", "n", "", []⟩]).calls =
      [⟨"p", "default", ["a\tb"], false, true, true, false⟩]
    ∧ splitOnWhitespaceSpec "a\tb" = ["a", "b"]
    ∧ (["a\tb"] : List String) ≠ ["a", "b"] := by
  refine ⟨by decide, by decide, by decide⟩

/-- C9 (amended): for the exec action, an empty command is rejected with
an error before any stream is opened; for a non-empty command one stream
per matched pod is opened in order, with argv the command split on the
space character, no standard input, no TTY, and remote stdout/stderr
piped to the local streams; a stream failure aborts the whole action
with an error naming that pod, leaving later pods untouched. -/
theorem exec_action_semantics
    (opts : ActionOptions) (input : String) (mkExec stream : String → Option String)
    (matched ppre : List Pod) (pbad : Pod) (prest : List Pod) (cause : String)
    (hskip : opts.skipConfirm = true) :
    (matched ≠ [] → opts.exec = "" →
      podHandleExec opts input mkExec stream matched =
        ⟨some "exec command is required for exec action", [], []⟩)
    ∧ (opts.exec ≠ "" →
        (∀ p ∈ matched, mkExec p.name = none) → (∀ p ∈ matched, stream p.name = none) →
        podHandleExec opts input mkExec stream matched =
          ⟨none, matched.map (fun p =>
            (⟨p.name, p.nspace, goSplitSpace opts.exec, false, true, true, false⟩ :
              ExecCall)), []⟩)
    ∧ (opts.exec ≠ "" →
        (∀ p ∈ ppre, mkExec p.name = none) → (∀ p ∈ ppre, stream p.name = none) →
        mkExec pbad.name = none → stream pbad.name = some cause →
        podHandleExec opts input mkExec stream (ppre ++ pbad :: prest) =
          ⟨some ("failed to execute command on pod " ++ pbad.name ++ ": " ++ cause),
           ppre.map (fun p =>
             (⟨p.name, p.nspace, goSplitSpace opts.exec, false, true, true, false⟩ :
               ExecCall))
             ++ [⟨pbad.name, pbad.nspace, goSplitSpace opts.exec, false, true, true, false⟩],
           []⟩) := by
  refine ⟨?_, ?_, ?_⟩
  · intro hm hempty
    cases matched with
    | nil => exact absurd rfl hm
    | cons a as => simp [podHandleExec, hempty]
  · intro hexec hm hs
    cases matched with
    | nil => simp [podHandleExec]
    | cons a as =>
      have hl := podExecLoop_all_ok opts.exec mkExec stream (a :: as) hm hs
      simp [podHandleExec, hexec, hskip, hl]
  · intro hexec hm hs h3 h4
    have hl := podExecLoop_stream_fail opts.exec mkExec stream ppre pbad prest cause
      hm hs h3 h4
    cases ppre with
    | nil => simp_all [podHandleExec, hexec, hskip]
    | cons a as => simp_all [podHandleExec, hexec, hskip]

def optsExec : ActionOptions :=
  ⟨"default", none, 0, 0, true, "", "", "", "nginx -s reload", none, false, none⟩

def optsExecEmpty : ActionOptions :=
  ⟨"default", none, 0, 0, true, "", "", "", "", none, false, none⟩

/-- Stream oracle failing exactly on `pod-bad`. -/
def streamFailOnBad : String → Option String := fun n =>
  if n = "pod-bad" then some "broken pipe" else none

theorem exec_action_semantics_witness :
    podHandleExec optsExecEmpty "" (fun _ => none) (fun _ => none) [podPlain] =
      ⟨some "exec command is required for exec action", [], []⟩
    ∧ podHandleExec optsExec "" (fun _ => none) (fun _ => none) [podPlain] =
      ⟨none, [⟨"test-pod", "default", ["nginx", "-s", "reload"], false, true, true, false⟩],
       []⟩
    ∧ podHandleExec optsExec "" (fun _ => none) streamFailOnBad
        ([podGood] ++ podBad :: []) =
      ⟨some ("failed to execute command on pod " ++ "pod-bad" ++ ": " ++ "broken pipe"),
       [⟨"pod-good", "default", ["nginx", "-s", "reload"], false, true, true, false⟩,
        ⟨"pod-bad", "default", ["nginx", "-s", "reload"], false, true, true, false⟩],
       []⟩ := by
  refine ⟨(exec_action_semantics optsExecEmpty "" (fun _ => none) (fun _ => none)
      [podPlain] [] podPlain [] "" rfl).1 (by simp) rfl, ?_, ?_⟩
  · have h := (exec_action_semantics optsExec "" (fun _ => none) (fun _ => none)
      [podPlain] [] podPlain [] "" rfl).2.1 (by decide)
      (fun _ _ => rfl) (fun _ _ => rfl)
    simpa using h
  · have h := (exec_action_semantics optsExec "" (fun _ => none) streamFailOnBad
      [] [podGood] podBad [] "broken pipe" rfl).2.2 (by decide)
      (by intro p hp; simp at hp; subst hp; rfl) (by intro p hp; simp at hp; subst hp; rfl)
      rfl rfl
    simpa using h

/-! Helper lemma: the universal handle applies the requested patch type
while the pod handle never reads it. -/

/-- C10: the pod handler submits every patch with the strategic-merge
patch type regardless of the requested strategy — its result does not
depend on `PatchStrategy` at all — while the generic handler uses the
requested strategy and only defaults an empty one to strategic merge. -/
theorem patch_strategy_semantics
    (res : Resource) (opts : ActionOptions) (input : String)
    (patchRes : String → Option String) (pods : List Pod) (items : List UItem)
    (s : String)
    (hpatch : opts.patch ≠ "") (hskip : opts.skipConfirm = true)
    (hall : ∀ p ∈ pods, patchRes p.name = none)
    (halli : ∀ i ∈ items, patchRes i.name = none) :
    (podHandlePatch opts input patchRes pods).calls =
      pods.map (fun p => (⟨p.name, strategicMergePatchType, opts.patch⟩ : PatchCall))
    ∧ (universalHandlePatch res opts input patchRes items).calls =
      items.map (fun i =>
        (⟨i.name,
          if opts.patchStrategy = "" then strategicMergePatchType else opts.patchStrategy,
          opts.patch⟩ : PatchCall))
    ∧ podHandlePatch { opts with patchStrategy := s } input patchRes pods =
        podHandlePatch opts input patchRes pods := by
  refine ⟨?_, ?_, rfl⟩
  · cases pods with
    | nil => simp [podHandlePatch]
    | cons a as =>
      have hl := podPatchLoop_all_ok opts.patch patchRes (a :: as) hall
      simp [podHandlePatch, hpatch, hskip, hl]
  · cases items with
    | nil => simp [universalHandlePatch]
    | cons a as =>
      have hl := universalPatchLoop_all_ok res opts.patch
        (if opts.patchStrategy = "" then strategicMergePatchType else opts.patchStrategy)
        patchRes (a :: as) halli
      simp [universalHandlePatch, hpatch, hskip, hl]

def optsJsonPatch : ActionOptions :=
  ⟨"default", none, 0, 0, true, "", "pbody", "application/json-patch+json", "",
   none, false, none⟩

theorem patch_strategy_semantics_witness :
    (podHandlePatch optsJsonPatch "" (fun _ => none) [podPlain]).calls =
      [⟨"test-pod", strategicMergePatchType, "pbody"⟩]
    ∧ (universalHandlePatch cmResource optsJsonPatch "" (fun _ => none) [cmItem]).calls =
      [⟨"test-cm", "application/json-patch+json", "pbody"⟩]
    ∧ podHandlePatch { optsJsonPatch with patchStrategy := "application/merge-patch+json" }
        "" (fun _ => none) [podPlain] =
      podHandlePatch optsJsonPatch "" (fun _ => none) [podPlain] := by
  have h := patch_strategy_semantics cmResource optsJsonPatch "" (fun _ => none)
    [podPlain] [cmItem] "application/merge-patch+json"
    (by decide) rfl (fun _ _ => rfl) (fun _ _ => rfl)
  exact ⟨by simpa using h.1, by simpa using h.2.1, h.2.2⟩
